import Mathlib

/-!
Verification of the sidecred configuration model and validation engine
(`config/config.go`): versioned parsing, shorthand flattening, and the
structural validator.  The Go code is shallowly embedded below; the `yaml`
decoder is treated as an external byte-to-structure decoder, and the
provider packages (which are outside this repository slice) are abstracted
by a `ProviderModel`.
-/

set_option autoImplicit false

/-- `sidecred.CredentialRequest`: the atomic unit of work.  `Type` is a string
tag (`sidecred.CredentialType`), `Config` is raw JSON (modelled as a string,
empty string standing for an absent/empty raw message), and `RotationWindow`
is a `*time.Duration` (modelled as `Option Int`). -/
structure CredentialRequest where
  ctype : String
  name : String
  rotationWindow : Option Int
  config : String
deriving DecidableEq, Repr

/-- `sidecred.CredentialsMap`: binds a store alias to a list of credential
requests (the shape produced by `requestV1.credentialsMap`). -/
structure CredentialsMap where
  store : String
  credentials : List CredentialRequest
deriving DecidableEq, Repr

/-- Modelled from the spec: `sidecred.StoreConfig` lives outside this
repository slice.  It carries a store-type tag, an optional explicit name and
opaque store-specific configuration. -/
structure StoreConfig where
  stype : String
  name : String
  config : String
deriving DecidableEq, Repr

/-- Modelled from the spec: `StoreConfig.Alias()` is "a derived or explicit
identifier" — the explicit name when present, otherwise the store-type tag
(the spec's end-to-end example references a nameless `inprocess` store by the
alias `"inprocess"`). -/
def StoreConfig.Alias (s : StoreConfig) : String :=
  if s.name = "" then s.stype else s.name

/-- The closed set of store types accepted by `v1.Validate`
(`sidecred.Inprocess`, `sidecred.SSM`, `sidecred.SecretsManager`,
`sidecred.GithubSecrets`; tag strings from the spec). -/
def knownStoreType (t : String) : Bool :=
  t = "inprocess" || t = "ssm" || t = "secretsManager" || t = "githubSecrets"

/-- The closed set of credential types recognized by `parseProviderConfig`
(`sidecred.AWSSTS`, `sidecred.GithubAccessToken`, `sidecred.GithubDeployKey`,
`sidecred.ArtifactoryAccessToken`, `sidecred.Randomized`; tag strings from
the spec). -/
def knownCredentialType (t : String) : Bool :=
  t = "aws:sts" || t = "github:access-token" || t = "github:deploy-key" ||
    t = "artifactory:access-token" || t = "random"

/-- Modelled from the spec: the provider packages (`sts`, `github`,
`artifactory`, `random`) are not part of this repository slice.  Each
provider contributes a decoder for its raw config (`sidecred.UnmarshalConfig`
into the provider's typed config) and a semantic validation of the decoded
config (`Validate()` on the typed config).  Both are abstracted as functions
of the credential-type tag and the raw config. -/
structure ProviderModel where
  unmarshalConfig : String → String → Except String Unit
  validateConfig : String → String → Except String Unit

/-- Errors returned by `parseProviderConfig`. -/
inductive ProviderParseError where
  | unknownType (t : String)
  | unmarshal (e : String)
deriving DecidableEq, Repr

/-- `parseProviderConfig`: dispatch on the credential-type tag (unknown tags
are rejected before any decoding), then decode the raw provider config. -/
def parseProviderConfig (P : ProviderModel) (t : String) (config : String) :
    Except ProviderParseError Unit :=
  if knownCredentialType t then
    match P.unmarshalConfig t config with
    | .error e => .error (.unmarshal e)
    | .ok _ => .ok ()
  else .error (.unknownType t)

/-- Errors produced by `credentialRequest.validate`. -/
inductive ShorthandError where
  | nameInList
  | configInList
  | typeInListEntry (i : Nat)
deriving DecidableEq, Repr

/-- `credentialRequest`: extends `sidecred.CredentialRequest` (the inlined
request) with an optional `list` of requests sharing one credential type. -/
structure credentialRequest where
  inlineReq : CredentialRequest
  list : List CredentialRequest
deriving DecidableEq, Repr

/-- The loop in `credentialRequest.validate` that reports the first list
entry declaring its own `type`. -/
def findTypedEntry : List CredentialRequest → Nat → Option Nat
  | [], _ => none
  | r :: rest, i => if r.ctype ≠ "" then some i else findTypedEntry rest (i + 1)

/-- `credentialRequest.validate`: nothing to check when there is no list;
otherwise the node's own `name` and `config` must be empty and no list entry
may declare its own `type`. -/
def credentialRequest.validate (c : credentialRequest) : Except ShorthandError Unit :=
  if c.list = [] then .ok ()
  else if c.inlineReq.name ≠ "" then .error .nameInList
  else if c.inlineReq.config ≠ "" then .error .configInList
  else
    match findTypedEntry c.list 0 with
    | some i => .error (.typeInListEntry i)
    | none => .ok ()

/-- `credentialRequest.flatten`: the node itself when there is no list,
otherwise one request per list entry inheriting the node's `type` and
carrying the entry's own `name`, `rotationWindow` and `config`. -/
def credentialRequest.flatten (c : credentialRequest) : List CredentialRequest :=
  if c.list = [] then [c.inlineReq]
  else c.list.map fun r =>
    { ctype := c.inlineReq.ctype, name := r.name,
      rotationWindow := r.rotationWindow, config := r.config }

/-- `requestV1`: one request group, binding a store alias to credentials. -/
structure requestV1 where
  store : String
  creds : List credentialRequest
deriving DecidableEq, Repr

/-- `requestV1.credentialsMap`: keeps the group's store and concatenates the
flattened credential requests of its entries, in order. -/
def requestV1.credentialsMap (c : requestV1) : CredentialsMap :=
  { store := c.store,
    credentials := (c.creds.map credentialRequest.flatten).flatten }

/-- The version-1 configuration model. -/
structure v1 where
  version : Int
  CredentialNamespace : String
  CredentialStores : List StoreConfig
  CredentialRequests : List requestV1
deriving DecidableEq, Repr

/-- `v1.Namespace`. -/
def v1.Namespace (c : v1) : String := c.CredentialNamespace

/-- `v1.Stores`. -/
def v1.Stores (c : v1) : List StoreConfig := c.CredentialStores

/-- `v1.Requests`: one credentials map per request group; no validation. -/
def v1.Requests (c : v1) : List CredentialsMap :=
  c.CredentialRequests.map requestV1.credentialsMap

/-- Errors returned by `v1.Validate`, carrying the positional indexes that
the Go code embeds in the error message. -/
inductive ValidationError where
  | missingNamespace
  | missingStores
  | unknownStoreType (i : Nat) (t : String)
  | duplicateStore (i : Nat) (a : String)
  | undefinedStore (i : Nat) (s : String)
  | invalidShorthand (i ii : Nat) (e : ShorthandError)
  | parseConfigError (i ii : Nat) (e : ProviderParseError)
  | invalidProviderConfig (i ii : Nat) (e : String)
  | duplicateRequest (i ii : Nat) (store name : String)
deriving DecidableEq, Repr

/-- The store loop of `v1.Validate`: for each store, in order, reject an
unknown type, then a duplicate alias; thread the set of seen aliases (a Go
map, modelled as a list used only through membership). -/
def checkStores : List StoreConfig → Nat → List String → Except ValidationError (List String)
  | [], _, seen => .ok seen
  | s :: rest, i, seen =>
    if knownStoreType s.stype then
      if s.Alias ∈ seen then .error (.duplicateStore i s.Alias)
      else checkStores rest (i + 1) (s.Alias :: seen)
    else .error (.unknownStoreType i s.stype)

/-- The inner loop of `v1.Validate` over one flattened request list: parse
the provider config, validate it, then reject a duplicated `(store, name)`
pair; thread the set of seen pairs. -/
def checkFlattened (P : ProviderModel) (store : String) (i ii : Nat) :
    List CredentialRequest → List (String × String) →
      Except ValidationError (List (String × String))
  | [], seen => .ok seen
  | r :: rest, seen =>
    match parseProviderConfig P r.ctype r.config with
    | .error e => .error (.parseConfigError i ii e)
    | .ok _ =>
      match P.validateConfig r.ctype r.config with
      | .error e => .error (.invalidProviderConfig i ii e)
      | .ok _ =>
        if (store, r.name) ∈ seen then .error (.duplicateRequest i ii store r.name)
        else checkFlattened P store i ii rest ((store, r.name) :: seen)

/-- The credential loop of `v1.Validate` over one request group: run
shorthand validation, then check the flattened requests. -/
def checkCreds (P : ProviderModel) (store : String) (i : Nat) :
    List credentialRequest → Nat → List (String × String) →
      Except ValidationError (List (String × String))
  | [], _, seen => .ok seen
  | cd :: rest, ii, seen =>
    match cd.validate with
    | .error e => .error (.invalidShorthand i ii e)
    | .ok _ =>
      match checkFlattened P store i ii cd.flatten seen with
      | .error e => .error e
      | .ok seen' => checkCreds P store i rest (ii + 1) seen'

/-- The request-group loop of `v1.Validate`: check the store reference, then
the group's credentials. -/
def checkRequests (P : ProviderModel) (aliases : List String) :
    List requestV1 → Nat → List (String × String) → Except ValidationError Unit
  | [], _, _ => .ok ()
  | r :: rest, i, seen =>
    if r.store ∈ aliases then
      match checkCreds P r.store i r.creds 0 seen with
      | .error e => .error e
      | .ok seen' => checkRequests P aliases rest (i + 1) seen'
    else .error (.undefinedStore i r.store)

/-- `v1.Validate`: namespace, stores, then the request groups, fail-fast. -/
def v1.Validate (P : ProviderModel) (c : v1) : Except ValidationError Unit :=
  if c.CredentialNamespace = "" then .error .missingNamespace
  else if c.CredentialStores = [] then .error .missingStores
  else
    match checkStores c.CredentialStores 0 [] with
    | .error e => .error e
    | .ok aliases => checkRequests P aliases c.CredentialRequests 0 []

/-- Errors returned by `Parse`. -/
inductive ParseError where
  | unmarshalVersion (e : String)
  | missingVersion
  | unknownVersion (v : Int)
  | unmarshalConfig (v : Int) (e : String)
deriving DecidableEq, Repr

/-- The outcome of the external YAML decoder on one input document:
`versionField` is the result of the non-strict decode of just the `version`
field (`yaml.Unmarshal` into the anonymous version struct), and `v1Decode`
is the result of the strict decode of the whole document against the
version-1 schema (`yaml.UnmarshalStrict`). -/
structure ParseInput where
  versionField : Except String (Option Int)
  v1Decode : Except String v1

/-- `Parse`: decode the version discriminator, require its presence,
dispatch on its value (only `1` is recognized), then strict-decode the
document against the version-1 schema. -/
def Parse (b : ParseInput) : Except ParseError v1 :=
  match b.versionField with
  | .error e => .error (.unmarshalVersion e)
  | .ok none => .error .missingVersion
  | .ok (some v) =>
    if v = 1 then
      match b.v1Decode with
      | .error e => .error (.unmarshalConfig v e)
      | .ok cfg => .ok cfg
    else .error (.unknownVersion v)

/-- A provider model in which every decode and every validation succeeds;
used to instantiate theorems on concrete configurations. -/
def trivialProvider : ProviderModel :=
  { unmarshalConfig := fun _ _ => .ok (), validateConfig := fun _ _ => .ok () }

/-- The `(store, name)` key recorded by `v1.Validate` for one flattened
request routed to `store`. -/
def pairFn (store : String) (r : CredentialRequest) : String × String :=
  (store, r.name)

/-- All `(store, name)` pairs contributed by one credential entry. -/
def credPairs (store : String) (cd : credentialRequest) : List (String × String) :=
  cd.flatten.map (pairFn store)

/-- All `(store, name)` pairs contributed by one request group. -/
def groupPairs (g : requestV1) : List (String × String) :=
  (g.creds.map (credPairs g.store)).flatten

/-- All flattened `(store, name)` pairs of a document, in document order. -/
def allPairs (c : v1) : List (String × String) :=
  (c.CredentialRequests.map groupPairs).flatten

/-- The store aliases of a document, in document order. -/
def aliasesOf (c : v1) : List String :=
  c.CredentialStores.map StoreConfig.Alias

/-- A flattened request passes both provider-config checks of
`v1.Validate`. -/
def providerOK (P : ProviderModel) (r : CredentialRequest) : Prop :=
  parseProviderConfig P r.ctype r.config = .ok () ∧
    P.validateConfig r.ctype r.config = .ok ()

/-- A credential entry passes shorthand validation and all of its flattened
requests pass the provider-config checks. -/
def credClean (P : ProviderModel) (cd : credentialRequest) : Prop :=
  cd.validate = .ok () ∧ ∀ fr ∈ cd.flatten, providerOK P fr

/-- A request group references a known store alias and all of its
credential entries are clean. -/
def groupClean (P : ProviderModel) (aliases : List String) (g : requestV1) : Prop :=
  g.store ∈ aliases ∧ ∀ cd ∈ g.creds, credClean P cd

/-- A store list passes the per-store checks of `v1.Validate`: every type is
known and the aliases are pairwise distinct. -/
def storesClean (l : List StoreConfig) : Prop :=
  (∀ s ∈ l, knownStoreType s.stype = true) ∧ (l.map StoreConfig.Alias).Nodup

/-- Whether a validation outcome is a duplicate-store-alias error. -/
def isDuplicateStoreErr : Except ValidationError Unit → Bool
  | .error (.duplicateStore _ _) => true
  | _ => false

/-! ### Helper lemmas -/

theorem findTypedEntry_append (l₁ : List CredentialRequest) (r : CredentialRequest)
    (l₂ : List CredentialRequest) (i : Nat)
    (h₁ : ∀ x ∈ l₁, x.ctype = "") (hr : r.ctype ≠ "") :
    findTypedEntry (l₁ ++ r :: l₂) i = some (i + l₁.length) := by
  induction l₁ generalizing i with
  | nil => simp [findTypedEntry, hr]
  | cons a t ih =>
    have ha : ¬(a.ctype ≠ "") := by simp [h₁ a (by simp)]
    have ht := ih (i + 1) (fun x hx => h₁ x (List.mem_cons_of_mem a hx))
    show (if a.ctype ≠ "" then some i else findTypedEntry (t ++ r :: l₂) (i + 1)) =
      some (i + (a :: t).length)
    rw [if_neg ha, ht]
    simp only [Option.some.injEq, List.length_cons]
    omega

/-! ### C3: shorthand flattening -/

/-- C3: for a shorthand node with an empty list, `flatten` is exactly the
singleton of the node's own inlined request; with a non-empty list it is one
resolved request per list entry, in authored order, each inheriting the
node's shared type and carrying the entry's own name, rotation window and
config; the result is never empty. -/
theorem flatten_spec (c : credentialRequest) :
    (c.list = [] → c.flatten = [c.inlineReq]) ∧
    (c.list ≠ [] →
      c.flatten = c.list.map fun r =>
        { ctype := c.inlineReq.ctype, name := r.name,
          rotationWindow := r.rotationWindow, config := r.config }) ∧
    c.flatten ≠ [] := by
  refine ⟨fun h => by simp [credentialRequest.flatten, h],
          fun h => by simp [credentialRequest.flatten, h], ?_⟩
  by_cases h : c.list = []
  · simp [credentialRequest.flatten, h]
  · simp [credentialRequest.flatten, h]

def nodeListAB : credentialRequest :=
  { inlineReq := { ctype := "random", name := "", rotationWindow := none, config := "" },
    list := [ { ctype := "", name := "a", rotationWindow := none, config := "{}" },
              { ctype := "", name := "b", rotationWindow := some 5, config := "" } ] }

/-- Witness for C3 at a concrete two-entry shorthand node. -/
theorem flatten_spec_witness :
    nodeListAB.flatten =
      [ { ctype := "random", name := "a", rotationWindow := none, config := "{}" },
        { ctype := "random", name := "b", rotationWindow := some 5, config := "" } ] := by
  have h := (flatten_spec nodeListAB).2.1 (by decide)
  exact h.trans rfl

/-! ### C4: shorthand validation rejections -/

/-- C4: for a shorthand node with a non-empty list, validation fails with an
`InvalidShorthand`-style error when the node's own name is non-empty
(regardless of the list's contents), when its own config is non-empty, or
when a list entry declares its own type — reporting the first such entry's
index. -/
theorem shorthand_validate_rejects (c : credentialRequest) (h : c.list ≠ []) :
    (c.inlineReq.name ≠ "" → c.validate = .error .nameInList) ∧
    (c.inlineReq.name = "" → c.inlineReq.config ≠ "" →
      c.validate = .error .configInList) ∧
    (∀ l₁ r l₂, c.inlineReq.name = "" → c.inlineReq.config = "" →
      c.list = l₁ ++ r :: l₂ → (∀ x ∈ l₁, x.ctype = "") → r.ctype ≠ "" →
      c.validate = .error (.typeInListEntry l₁.length)) := by
  refine ⟨fun hn => by simp [credentialRequest.validate, h, hn], ?_, ?_⟩
  · intro hn hc
    simp [credentialRequest.validate, h, hn, hc]
  · intro l₁ r l₂ hn hc hl h₁ hr
    have := findTypedEntry_append l₁ r l₂ 0 h₁ hr
    simp [credentialRequest.validate, h, hn, hc, hl, this]

def nodeBadName : credentialRequest :=
  { inlineReq := { ctype := "random", name := "x", rotationWindow := none, config := "" },
    list := [ { ctype := "", name := "a", rotationWindow := none, config := "" } ] }

def nodeBadEntryType : credentialRequest :=
  { inlineReq := { ctype := "random", name := "", rotationWindow := none, config := "" },
    list := [ { ctype := "", name := "a", rotationWindow := none, config := "" },
              { ctype := "aws:sts", name := "b", rotationWindow := none, config := "" } ] }

/-- Witness for C4 at concrete malformed shorthand nodes. -/
theorem shorthand_validate_rejects_witness :
    nodeBadName.validate = .error .nameInList ∧
    nodeBadEntryType.validate = .error (.typeInListEntry 1) := by
  constructor
  · exact (shorthand_validate_rejects nodeBadName (by decide)).1 (by decide)
  · exact (shorthand_validate_rejects nodeBadEntryType (by decide)).2.2
      [{ ctype := "", name := "a", rotationWindow := none, config := "" }]
      { ctype := "aws:sts", name := "b", rotationWindow := none, config := "" }
      [] rfl rfl rfl (by decide) (by decide)

/-! ### C10: the Requests accessor -/

/-- C10: `v1.Requests` performs no validation and cannot fail: on every
config — validated or not — it returns one credentials map per request
group, in order, preserving the group's store field and concatenating the
flattened credential requests of its entries in order.  Moreover flattening
of a node with a non-empty list depends only on the node's shared type and
its list: the node's own name and config are silently discarded. -/
theorem requests_accessor_spec (c : v1) :
    v1.Requests c =
      c.CredentialRequests.map (fun r =>
        { store := r.store,
          credentials := (r.creds.map credentialRequest.flatten).flatten }) ∧
    (∀ a b : credentialRequest, a.list ≠ [] → a.list = b.list →
      a.inlineReq.ctype = b.inlineReq.ctype → a.flatten = b.flatten) := by
  constructor
  · rfl
  · intro a b ha hab ht
    have hb : b.list ≠ [] := hab ▸ ha
    simp [credentialRequest.flatten, ha, hb, ← hab, ht]

def nodeAmbiguous : credentialRequest :=
  { inlineReq := { ctype := "random", name := "dropped", rotationWindow := none,
                   config := "dropped" },
    list := [ { ctype := "", name := "a", rotationWindow := none, config := "{}" } ] }

def nodePureList : credentialRequest :=
  { inlineReq := { ctype := "random", name := "", rotationWindow := none, config := "" },
    list := [ { ctype := "", name := "a", rotationWindow := none, config := "{}" } ] }

def cfgAmbiguous : v1 :=
  { version := 1, CredentialNamespace := "ns",
    CredentialStores := [ { stype := "inprocess", name := "", config := "" } ],
    CredentialRequests := [ { store := "inprocess", creds := [ nodeAmbiguous ] } ] }

/-- Witness for C10: on a config whose shorthand node has both a non-empty
name/config and a non-empty list (so `Validate` rejects it), `Requests`
still returns the flattened list entries, discarding the node's own name and
config. -/
theorem requests_accessor_spec_witness :
    v1.Requests cfgAmbiguous =
      [ { store := "inprocess",
          credentials := [ { ctype := "random", name := "a", rotationWindow := none,
                             config := "{}" } ] } ] ∧
    nodeAmbiguous.flatten = nodePureList.flatten := by
  constructor
  · exact ((requests_accessor_spec cfgAmbiguous).1).trans rfl
  · exact (requests_accessor_spec cfgAmbiguous).2 nodeAmbiguous nodePureList
      (by decide) rfl rfl

/-! ### C6: the version gate of Parse -/

/-- C6: `Parse` fails with the missing-version error when the discriminator
is absent and with the unsupported-version error (naming the value) for any
version other than 1; a version-1 decode error can only arise when the
discriminator was present and equal to 1, because version detection and
dispatch happen before the strict version-1 decode. -/
theorem parse_version_gate (b : ParseInput) :
    (b.versionField = .ok none → Parse b = .error .missingVersion) ∧
    (∀ v : Int, v ≠ 1 → b.versionField = .ok (some v) →
      Parse b = .error (.unknownVersion v)) ∧
    (∀ v e, Parse b = .error (.unmarshalConfig v e) →
      v = 1 ∧ b.versionField = .ok (some 1) ∧ b.v1Decode = .error e) := by
  refine ⟨fun h => by simp [Parse, h], fun v hv h => by simp [Parse, h, hv], ?_⟩
  intro v e h
  cases hvf : b.versionField with
  | error e' => simp [Parse, hvf] at h
  | ok o =>
    cases o with
    | none => simp [Parse, hvf] at h
    | some w =>
      by_cases hw : w = 1
      · subst hw
        cases hvd : b.v1Decode with
        | error e' =>
          simp [Parse, hvf, hvd] at h
          exact ⟨h.1.symm, rfl, by rw [h.2]⟩
        | ok cfg => simp [Parse, hvf, hvd] at h
      · simp [Parse, hvf, hw] at h

def inputNoVersion : ParseInput :=
  { versionField := .ok none, v1Decode := .error "x" }

def inputVersionTwo : ParseInput :=
  { versionField := .ok (some 2), v1Decode := .error "unknown field" }

/-- Witness for C6 at concrete decoder outcomes. -/
theorem parse_version_gate_witness :
    Parse inputNoVersion = .error .missingVersion ∧
    Parse inputVersionTwo = .error (.unknownVersion 2) := by
  exact ⟨(parse_version_gate inputNoVersion).1 rfl,
         (parse_version_gate inputVersionTwo).2.1 2 (by decide) rfl⟩

/-! ### C1: Parse does not run Validate -/

def cfgNoNamespace : v1 :=
  { version := 1, CredentialNamespace := "",
    CredentialStores := [], CredentialRequests := [] }

def inputBareVersionOne : ParseInput :=
  { versionField := .ok (some 1), v1Decode := .ok cfgNoNamespace }

/-- C1 counterexample: a document holding only `version: 1` strict-decodes
successfully, so `Parse` returns its Config without error, yet `Validate` on
that Config fails (empty namespace): `Parse` does not run `Validate`. -/
theorem parse_ok_but_validate_fails :
    Parse inputBareVersionOne = .ok cfgNoNamespace ∧
    v1.Validate trivialProvider cfgNoNamespace = .error .missingNamespace := by
  exact ⟨rfl, rfl⟩

/-- C1 (amended): `Parse` succeeds exactly when the version discriminator
decodes to 1 and the strict version-1 decode succeeds, and it returns the
decoded Config as-is; `Validate` is not invoked by `Parse`, so a
successfully parsed Config may still fail validation. -/
theorem parse_ok_iff_strict_decode (b : ParseInput) (cfg : v1) :
    Parse b = .ok cfg ↔
      b.versionField = .ok (some 1) ∧ b.v1Decode = .ok cfg := by
  cases hvf : b.versionField with
  | error e => simp [Parse, hvf]
  | ok o =>
    cases o with
    | none => simp [Parse, hvf]
    | some w =>
      by_cases hw : w = 1
      · subst hw
        cases hvd : b.v1Decode with
        | error e => simp [Parse, hvf, hvd]
        | ok c => simp [Parse, hvf, hvd, eq_comm]
      · simp [Parse, hvf, hw]

/-- Witness for C1's amended statement at a concrete input. -/
theorem parse_ok_iff_strict_decode_witness :
    Parse inputBareVersionOne = .ok cfgNoNamespace := by
  exact (parse_ok_iff_strict_decode inputBareVersionOne cfgNoNamespace).2 ⟨rfl, rfl⟩

/-! ### C9: shorthand duality -/

def emptyNode : credentialRequest :=
  { inlineReq := { ctype := "", name := "", rotationWindow := none, config := "" },
    list := [] }

/-- C9 counterexample: the both-empty shorthand node (empty list, empty
name, config and type) passes `credentialRequest.validate` rather than
failing it. -/
theorem empty_node_passes_shorthand_validation :
    emptyNode.list = [] ∧ emptyNode.inlineReq.name = "" ∧
    emptyNode.inlineReq.config = "" ∧ emptyNode.inlineReq.ctype = "" ∧
    emptyNode.validate = .ok () := by
  exact ⟨rfl, rfl, rfl, rfl, rfl⟩

/-- C9 (amended): shorthand validation rejects the both-populated state (a
non-empty list alongside a non-empty own name or config) but accepts every
node with an empty list, including the both-empty one, as a singleton
request; the both-empty node is instead rejected downstream: it flattens to
its own inlined request, whose empty type fails the provider-config parse
step of `Validate` with an unknown-type error. -/
theorem shorthand_duality (c : credentialRequest) :
    (c.list = [] → c.validate = .ok ()) ∧
    (c.list ≠ [] → c.inlineReq.name ≠ "" → c.validate = .error .nameInList) ∧
    (c.list ≠ [] → c.inlineReq.name = "" → c.inlineReq.config ≠ "" →
      c.validate = .error .configInList) ∧
    (c.list = [] → c.inlineReq.ctype = "" → ∀ P : ProviderModel,
      c.flatten = [c.inlineReq] ∧
      parseProviderConfig P c.inlineReq.ctype c.inlineReq.config =
        .error (.unknownType "")) := by
  refine ⟨fun h => by simp [credentialRequest.validate, h],
          fun h hn => by simp [credentialRequest.validate, h, hn],
          fun h hn hc => by simp [credentialRequest.validate, h, hn, hc],
          ?_⟩
  intro h ht P
  refine ⟨by simp [credentialRequest.flatten, h], ?_⟩
  rw [ht]
  simp [parseProviderConfig, knownCredentialType]

/-- Witness for C9's amended statement at the both-empty node. -/
theorem shorthand_duality_witness :
    emptyNode.validate = .ok () ∧
    emptyNode.flatten = [emptyNode.inlineReq] ∧
    parseProviderConfig trivialProvider emptyNode.inlineReq.ctype
      emptyNode.inlineReq.config = .error (.unknownType "") := by
  refine ⟨(shorthand_duality emptyNode).1 rfl, ?_, ?_⟩
  · exact ((shorthand_duality emptyNode).2.2.2 rfl rfl trivialProvider).1
  · exact ((shorthand_duality emptyNode).2.2.2 rfl rfl trivialProvider).2

/-! ### Specification lemmas for the store loop -/

theorem checkStores_ok (l : List StoreConfig) (i : Nat) (seen out : List String)
    (h : checkStores l i seen = .ok out) :
    (∀ s ∈ l, knownStoreType s.stype = true) ∧
    (l.map StoreConfig.Alias).Nodup ∧
    (∀ a ∈ l.map StoreConfig.Alias, a ∉ seen) ∧
    out = (l.map StoreConfig.Alias).reverse ++ seen := by
  induction l generalizing i seen with
  | nil =>
    simp only [checkStores, Except.ok.injEq] at h
    subst h
    simp
  | cons s t ih =>
    by_cases hk : knownStoreType s.stype
    · by_cases hm : s.Alias ∈ seen
      · simp [checkStores, hk, hm] at h
      · have h' : checkStores t (i + 1) (s.Alias :: seen) = .ok out := by
          simpa [checkStores, hk, hm] using h
        obtain ⟨ht1, ht2, ht3, ht4⟩ := ih (i + 1) (s.Alias :: seen) h'
        refine ⟨?_, ?_, ?_, ?_⟩
        · intro x hx
          rcases List.mem_cons.mp hx with hx | hx
          · exact hx ▸ hk
          · exact ht1 x hx
        · refine List.nodup_cons.mpr ⟨?_, ht2⟩
          intro hmem
          exact ht3 _ hmem (List.mem_cons_self _ _)
        · intro a ha
          rcases List.mem_cons.mp ha with ha | ha
          · exact ha ▸ hm
          · exact fun hs => ht3 a ha (List.mem_cons_of_mem _ hs)
        · rw [ht4]
          simp [List.reverse_cons, List.append_assoc]
    · simp [checkStores, hk] at h

theorem checkStores_eq_ok (l : List StoreConfig) (i : Nat) (seen : List String)
    (hk : ∀ s ∈ l, knownStoreType s.stype = true)
    (hnd : (l.map StoreConfig.Alias).Nodup)
    (hfresh : ∀ a ∈ l.map StoreConfig.Alias, a ∉ seen) :
    checkStores l i seen = .ok ((l.map StoreConfig.Alias).reverse ++ seen) := by
  induction l generalizing i seen with
  | nil => simp [checkStores]
  | cons s t ih =>
    rw [List.map_cons, List.nodup_cons] at hnd
    have hks := hk s (List.mem_cons_self _ _)
    have hm : s.Alias ∉ seen := hfresh _ (by simp)
    have ht := ih (i + 1) (s.Alias :: seen)
      (fun x hx => hk x (List.mem_cons_of_mem _ hx)) hnd.2
      (by
        intro a ha
        rw [List.mem_cons]
        push_neg
        exact ⟨fun hc => hnd.1 (hc ▸ ha), hfresh a (List.mem_cons_of_mem _ ha)⟩)
    have hstep : checkStores (s :: t) i seen = checkStores t (i + 1) (s.Alias :: seen) := by
      simp [checkStores, hks, hm]
    rw [hstep, ht]
    congr 1
    simp [List.append_assoc]

theorem checkStores_append (l₁ l₂ : List StoreConfig) (i : Nat) (seen : List String)
    (hk : ∀ s ∈ l₁, knownStoreType s.stype = true)
    (hnd : (l₁.map StoreConfig.Alias).Nodup)
    (hfresh : ∀ a ∈ l₁.map StoreConfig.Alias, a ∉ seen) :
    checkStores (l₁ ++ l₂) i seen =
      checkStores l₂ (i + l₁.length) ((l₁.map StoreConfig.Alias).reverse ++ seen) := by
  induction l₁ generalizing i seen with
  | nil => simp
  | cons s t ih =>
    rw [List.map_cons, List.nodup_cons] at hnd
    have hks := hk s (List.mem_cons_self _ _)
    have hm : s.Alias ∉ seen := hfresh _ (by simp)
    have ht := ih (i + 1) (s.Alias :: seen)
      (fun x hx => hk x (List.mem_cons_of_mem _ hx)) hnd.2
      (by
        intro a ha
        rw [List.mem_cons]
        push_neg
        exact ⟨fun hc => hnd.1 (hc ▸ ha), hfresh a (List.mem_cons_of_mem _ ha)⟩)
    have harith : i + 1 + t.length = i + (s :: t).length := by
      simp only [List.length_cons]
      omega
    rw [harith] at ht
    have hstep : checkStores ((s :: t) ++ l₂) i seen =
        checkStores (t ++ l₂) (i + 1) (s.Alias :: seen) := by
      simp [checkStores, hks, hm]
    rw [hstep, ht]
    congr 1
    simp [List.append_assoc]

/-! ### Specification lemmas for the flattened-request loop -/

theorem checkFlattened_ok (P : ProviderModel) (store : String) (i ii : Nat)
    (l : List CredentialRequest) (seen out : List (String × String))
    (h : checkFlattened P store i ii l seen = .ok out) :
    (∀ r ∈ l, providerOK P r) ∧
    (l.map (pairFn store)).Nodup ∧
    (∀ p ∈ l.map (pairFn store), p ∉ seen) ∧
    out = (l.map (pairFn store)).reverse ++ seen := by
  induction l generalizing seen with
  | nil =>
    simp only [checkFlattened, Except.ok.injEq] at h
    subst h
    simp
  | cons r t ih =>
    cases hp : parseProviderConfig P r.ctype r.config with
    | error e => simp [checkFlattened, hp] at h
    | ok u =>
      cases u
      cases hv : P.validateConfig r.ctype r.config with
      | error e => simp [checkFlattened, hp, hv] at h
      | ok u =>
        cases u
        by_cases hm : (store, r.name) ∈ seen
        · simp [checkFlattened, hp, hv, hm] at h
        · have h' : checkFlattened P store i ii t ((store, r.name) :: seen) = .ok out := by
            simpa [checkFlattened, hp, hv, hm] using h
          obtain ⟨ht1, ht2, ht3, ht4⟩ := ih ((store, r.name) :: seen) h'
          simp only [List.map_cons, pairFn]
          refine ⟨?_, ?_, ?_, ?_⟩
          · intro x hx
            rcases List.mem_cons.mp hx with hx | hx
            · exact hx ▸ ⟨hp, hv⟩
            · exact ht1 x hx
          · refine List.nodup_cons.mpr ⟨?_, ht2⟩
            intro hmem
            exact ht3 _ hmem (by simp [pairFn])
          · intro p hp'
            rcases List.mem_cons.mp hp' with hp' | hp'
            · exact hp' ▸ hm
            · exact fun hs => ht3 p hp' (List.mem_cons_of_mem _ hs)
          · rw [ht4]
            simp [pairFn, List.append_assoc]

theorem checkFlattened_eq_ok (P : ProviderModel) (store : String) (i ii : Nat)
    (l : List CredentialRequest) (seen : List (String × String))
    (hprov : ∀ r ∈ l, providerOK P r)
    (hnd : (l.map (pairFn store)).Nodup)
    (hfresh : ∀ p ∈ l.map (pairFn store), p ∉ seen) :
    checkFlattened P store i ii l seen =
      .ok ((l.map (pairFn store)).reverse ++ seen) := by
  induction l generalizing seen with
  | nil => simp [checkFlattened]
  | cons r t ih =>
    rw [List.map_cons, List.nodup_cons] at hnd
    obtain ⟨hp, hv⟩ := hprov r (List.mem_cons_self _ _)
    have hm : (store, r.name) ∉ seen := hfresh _ (by simp [pairFn])
    have ht := ih ((store, r.name) :: seen) (fun x hx => hprov x (List.mem_cons_of_mem _ hx)) hnd.2
      (by
        intro p hp'
        rw [List.mem_cons]
        push_neg
        refine ⟨fun hc => hnd.1 ?_, hfresh p (List.mem_cons_of_mem _ hp')⟩
        rw [show pairFn store r = (store, r.name) from rfl, ← hc]
        exact hp')
    have hstep : checkFlattened P store i ii (r :: t) seen =
        checkFlattened P store i ii t ((store, r.name) :: seen) := by
      simp [checkFlattened, hp, hv, hm]
    rw [hstep, ht]
    congr 1
    simp [pairFn, List.append_assoc]

theorem checkFlattened_append (P : ProviderModel) (store : String) (i ii : Nat)
    (l₁ l₂ : List CredentialRequest) (seen : List (String × String))
    (hprov : ∀ r ∈ l₁, providerOK P r)
    (hnd : (l₁.map (pairFn store)).Nodup)
    (hfresh : ∀ p ∈ l₁.map (pairFn store), p ∉ seen) :
    checkFlattened P store i ii (l₁ ++ l₂) seen =
      checkFlattened P store i ii l₂ ((l₁.map (pairFn store)).reverse ++ seen) := by
  induction l₁ generalizing seen with
  | nil => simp
  | cons r t ih =>
    rw [List.map_cons, List.nodup_cons] at hnd
    obtain ⟨hp, hv⟩ := hprov r (List.mem_cons_self _ _)
    have hm : (store, r.name) ∉ seen := hfresh _ (by simp [pairFn])
    have ht := ih ((store, r.name) :: seen) (fun x hx => hprov x (List.mem_cons_of_mem _ hx)) hnd.2
      (by
        intro p hp'
        rw [List.mem_cons]
        push_neg
        refine ⟨fun hc => hnd.1 ?_, hfresh p (List.mem_cons_of_mem _ hp')⟩
        rw [show pairFn store r = (store, r.name) from rfl, ← hc]
        exact hp')
    have hstep : checkFlattened P store i ii ((r :: t) ++ l₂) seen =
        checkFlattened P store i ii (t ++ l₂) ((store, r.name) :: seen) := by
      simp [checkFlattened, hp, hv, hm]
    rw [hstep, ht]
    congr 1
    simp [pairFn, List.append_assoc]

/-! ### Specification lemmas for the credential loop -/

theorem checkCreds_ok (P : ProviderModel) (store : String) (i : Nat)
    (l : List credentialRequest) (ii : Nat) (seen out : List (String × String))
    (h : checkCreds P store i l ii seen = .ok out) :
    (∀ cd ∈ l, credClean P cd) ∧
    ((l.map (credPairs store)).flatten).Nodup ∧
    (∀ p ∈ (l.map (credPairs store)).flatten, p ∉ seen) ∧
    out = ((l.map (credPairs store)).flatten).reverse ++ seen := by
  induction l generalizing ii seen with
  | nil =>
    simp only [checkCreds, Except.ok.injEq] at h
    subst h
    simp
  | cons cd t ih =>
    cases hv : cd.validate with
    | error e => simp [checkCreds, hv] at h
    | ok u =>
      cases u
      cases hcf : checkFlattened P store i ii cd.flatten seen with
      | error e => simp [checkCreds, hv, hcf] at h
      | ok seen' =>
        have h' : checkCreds P store i t (ii + 1) seen' = .ok out := by
          simpa [checkCreds, hv, hcf] using h
        obtain ⟨hf1, hf2, hf3, hf4⟩ :=
          checkFlattened_ok P store i ii cd.flatten seen seen' hcf
        obtain ⟨ht1, ht2, ht3, ht4⟩ := ih (ii + 1) seen' h'
        have hsub : ∀ p ∈ credPairs store cd, p ∈ seen' := by
          intro p hp
          rw [hf4]
          exact List.mem_append_left _ (List.mem_reverse.mpr hp)
        simp only [List.map_cons, List.flatten_cons]
        refine ⟨?_, ?_, ?_, ?_⟩
        · intro x hx
          rcases List.mem_cons.mp hx with hx | hx
          · exact hx ▸ ⟨hv, hf1⟩
          · exact ht1 x hx
        · refine List.nodup_append.mpr ⟨hf2, ht2, ?_⟩
          intro p hpc hpt
          exact ht3 p hpt (hsub p hpc)
        · intro p hp
          rcases List.mem_append.mp hp with hp | hp
          · exact hf3 p hp
          · intro hs
            exact ht3 p hp (by rw [hf4]; exact List.mem_append_right _ hs)
        · rw [ht4, hf4]
          simp [credPairs, List.reverse_append, List.append_assoc]

theorem checkCreds_eq_ok (P : ProviderModel) (store : String) (i : Nat)
    (l : List credentialRequest) (ii : Nat) (seen : List (String × String))
    (hcl : ∀ cd ∈ l, credClean P cd)
    (hnd : ((l.map (credPairs store)).flatten).Nodup)
    (hfresh : ∀ p ∈ (l.map (credPairs store)).flatten, p ∉ seen) :
    checkCreds P store i l ii seen =
      .ok (((l.map (credPairs store)).flatten).reverse ++ seen) := by
  induction l generalizing ii seen with
  | nil => simp [checkCreds]
  | cons cd t ih =>
    simp only [List.map_cons, List.flatten_cons] at hnd hfresh ⊢
    obtain ⟨hnd1, hnd2, hdisj⟩ := List.nodup_append.mp hnd
    obtain ⟨hv, hprov⟩ := hcl cd (List.mem_cons_self _ _)
    have hcf := checkFlattened_eq_ok P store i ii cd.flatten seen hprov hnd1
      (fun p hp => hfresh p (List.mem_append_left _ hp))
    have ht := ih (ii + 1) ((credPairs store cd).reverse ++ seen)
      (fun x hx => hcl x (List.mem_cons_of_mem _ hx)) hnd2
      (by
        intro p hp
        rw [List.mem_append, List.mem_reverse]
        push_neg
        exact ⟨fun hc => hdisj hc hp, hfresh p (List.mem_append_right _ hp)⟩)
    have hstep : checkCreds P store i (cd :: t) ii seen =
        checkCreds P store i t (ii + 1) ((credPairs store cd).reverse ++ seen) := by
      simp [checkCreds, hv, hcf, credPairs]
    rw [hstep, ht]
    congr 1
    simp [List.reverse_append, List.append_assoc]

theorem checkCreds_append (P : ProviderModel) (store : String) (i : Nat)
    (l₁ l₂ : List credentialRequest) (ii : Nat) (seen : List (String × String))
    (hcl : ∀ cd ∈ l₁, credClean P cd)
    (hnd : ((l₁.map (credPairs store)).flatten).Nodup)
    (hfresh : ∀ p ∈ (l₁.map (credPairs store)).flatten, p ∉ seen) :
    checkCreds P store i (l₁ ++ l₂) ii seen =
      checkCreds P store i l₂ (ii + l₁.length)
        (((l₁.map (credPairs store)).flatten).reverse ++ seen) := by
  induction l₁ generalizing ii seen with
  | nil => simp
  | cons cd t ih =>
    simp only [List.map_cons, List.flatten_cons] at hnd hfresh
    obtain ⟨hnd1, hnd2, hdisj⟩ := List.nodup_append.mp hnd
    obtain ⟨hv, hprov⟩ := hcl cd (List.mem_cons_self _ _)
    have hcf := checkFlattened_eq_ok P store i ii cd.flatten seen hprov hnd1
      (fun p hp => hfresh p (List.mem_append_left _ hp))
    have ht := ih (ii + 1) ((credPairs store cd).reverse ++ seen)
      (fun x hx => hcl x (List.mem_cons_of_mem _ hx)) hnd2
      (by
        intro p hp
        rw [List.mem_append, List.mem_reverse]
        push_neg
        exact ⟨fun hc => hdisj hc hp, hfresh p (List.mem_append_right _ hp)⟩)
    have harith : ii + 1 + t.length = ii + (cd :: t).length := by
      simp only [List.length_cons]
      omega
    rw [harith] at ht
    have hstep : checkCreds P store i ((cd :: t) ++ l₂) ii seen =
        checkCreds P store i (t ++ l₂) (ii + 1) ((credPairs store cd).reverse ++ seen) := by
      simp [checkCreds, hv, hcf, credPairs]
    rw [hstep, ht]
    congr 1
    simp [List.reverse_append, List.append_assoc]

/-! ### Specification lemmas for the request-group loop -/

theorem checkRequests_ok (P : ProviderModel) (aliases : List String)
    (l : List requestV1) (i : Nat) (seen : List (String × String))
    (h : checkRequests P aliases l i seen = .ok ()) :
    (∀ g ∈ l, groupClean P aliases g) ∧
    ((l.map groupPairs).flatten).Nodup ∧
    (∀ p ∈ (l.map groupPairs).flatten, p ∉ seen) := by
  induction l generalizing i seen with
  | nil => simp
  | cons g t ih =>
    by_cases hs : g.store ∈ aliases
    · cases hcc : checkCreds P g.store i g.creds 0 seen with
      | error e => simp [checkRequests, hs, hcc] at h
      | ok seen' =>
        have h' : checkRequests P aliases t (i + 1) seen' = .ok () := by
          simpa [checkRequests, hs, hcc] using h
        obtain ⟨hc1, hc2, hc3, hc4⟩ := checkCreds_ok P g.store i g.creds 0 seen seen' hcc
        obtain ⟨ht1, ht2, ht3⟩ := ih (i + 1) seen' h'
        have hsub : ∀ p ∈ groupPairs g, p ∈ seen' := by
          intro p hp
          rw [hc4]
          exact List.mem_append_left _ (List.mem_reverse.mpr hp)
        simp only [List.map_cons, List.flatten_cons]
        refine ⟨?_, ?_, ?_⟩
        · intro x hx
          rcases List.mem_cons.mp hx with hx | hx
          · exact hx ▸ ⟨hs, hc1⟩
          · exact ht1 x hx
        · refine List.nodup_append.mpr ⟨by exact hc2, ht2, ?_⟩
          intro p hpg hpt
          exact ht3 p hpt (hsub p hpg)
        · intro p hp
          rcases List.mem_append.mp hp with hp | hp
          · exact hc3 p hp
          · intro hsn
            exact ht3 p hp (by rw [hc4]; exact List.mem_append_right _ hsn)
    · simp [checkRequests, hs] at h

theorem checkRequests_eq_ok (P : ProviderModel) (aliases : List String)
    (l : List requestV1) (i : Nat) (seen : List (String × String))
    (hcl : ∀ g ∈ l, groupClean P aliases g)
    (hnd : ((l.map groupPairs).flatten).Nodup)
    (hfresh : ∀ p ∈ (l.map groupPairs).flatten, p ∉ seen) :
    checkRequests P aliases l i seen = .ok () := by
  induction l generalizing i seen with
  | nil => rfl
  | cons g t ih =>
    simp only [List.map_cons, List.flatten_cons] at hnd hfresh
    obtain ⟨hnd1, hnd2, hdisj⟩ := List.nodup_append.mp hnd
    obtain ⟨hs, hcc⟩ := hcl g (List.mem_cons_self _ _)
    have hcred := checkCreds_eq_ok P g.store i g.creds 0 seen hcc (by exact hnd1)
      (fun p hp => hfresh p (List.mem_append_left _ hp))
    have ht := ih (i + 1) ((groupPairs g).reverse ++ seen)
      (fun x hx => hcl x (List.mem_cons_of_mem _ hx)) hnd2
      (by
        intro p hp
        rw [List.mem_append, List.mem_reverse]
        push_neg
        exact ⟨fun hc => hdisj hc hp, hfresh p (List.mem_append_right _ hp)⟩)
    have ht' : checkRequests P aliases t (i + 1)
        (((g.creds.map (credPairs g.store)).flatten).reverse ++ seen) = .ok () := ht
    simp [checkRequests, hs, hcred, ht']

theorem checkRequests_append (P : ProviderModel) (aliases : List String)
    (l₁ l₂ : List requestV1) (i : Nat) (seen : List (String × String))
    (hcl : ∀ g ∈ l₁, groupClean P aliases g)
    (hnd : ((l₁.map groupPairs).flatten).Nodup)
    (hfresh : ∀ p ∈ (l₁.map groupPairs).flatten, p ∉ seen) :
    checkRequests P aliases (l₁ ++ l₂) i seen =
      checkRequests P aliases l₂ (i + l₁.length)
        (((l₁.map groupPairs).flatten).reverse ++ seen) := by
  induction l₁ generalizing i seen with
  | nil => simp
  | cons g t ih =>
    simp only [List.map_cons, List.flatten_cons] at hnd hfresh
    obtain ⟨hnd1, hnd2, hdisj⟩ := List.nodup_append.mp hnd
    obtain ⟨hs, hcc⟩ := hcl g (List.mem_cons_self _ _)
    have hcred := checkCreds_eq_ok P g.store i g.creds 0 seen hcc (by exact hnd1)
      (fun p hp => hfresh p (List.mem_append_left _ hp))
    have ht := ih (i + 1) ((groupPairs g).reverse ++ seen)
      (fun x hx => hcl x (List.mem_cons_of_mem _ hx)) hnd2
      (by
        intro p hp
        rw [List.mem_append, List.mem_reverse]
        push_neg
        exact ⟨fun hc => hdisj hc hp, hfresh p (List.mem_append_right _ hp)⟩)
    have harith : i + 1 + t.length = i + (g :: t).length := by
      simp only [List.length_cons]
      omega
    rw [harith] at ht
    have hstep : checkRequests P aliases ((g :: t) ++ l₂) i seen =
        checkRequests P aliases (t ++ l₂) (i + 1) ((groupPairs g).reverse ++ seen) := by
      simp [checkRequests, hs, hcred, groupPairs]
    rw [hstep, ht]
    congr 1
    simp [List.reverse_append, List.append_assoc]

theorem checkRequests_congr (P : ProviderModel) (A B : List String)
    (hAB : ∀ a, a ∈ A ↔ a ∈ B) (l : List requestV1) (i : Nat)
    (seen : List (String × String)) :
    checkRequests P A l i seen = checkRequests P B l i seen := by
  induction l generalizing i seen with
  | nil => rfl
  | cons g t ih =>
    by_cases hs : g.store ∈ A
    · have hs' : g.store ∈ B := (hAB _).mp hs
      cases hcc : checkCreds P g.store i g.creds 0 seen with
      | error e => simp [checkRequests, hs, hs', hcc]
      | ok seen' =>
        simp only [checkRequests, hs, hs', if_true, hcc]
        exact ih (i + 1) seen'
    · have hs' : g.store ∉ B := fun hx => hs ((hAB _).mpr hx)
      simp [checkRequests, hs, hs']

/-! ### Top-level glue -/

theorem parseProviderConfig_ok (P : ProviderModel) (t config : String)
    (h : parseProviderConfig P t config = .ok ()) :
    knownCredentialType t = true ∧ P.unmarshalConfig t config = .ok () := by
  by_cases hk : knownCredentialType t
  · refine ⟨hk, ?_⟩
    cases hu : P.unmarshalConfig t config with
    | error e => simp [parseProviderConfig, hk, hu] at h
    | ok u => cases u; rfl
  · simp [parseProviderConfig, hk] at h

theorem validate_eq_stores_err (P : ProviderModel) (c : v1) (e : ValidationError)
    (hns : c.CredentialNamespace ≠ "") (hne : c.CredentialStores ≠ [])
    (h : checkStores c.CredentialStores 0 [] = .error e) :
    v1.Validate P c = .error e := by
  simp [v1.Validate, hns, hne, h]

theorem validate_eq_checkRequests (P : ProviderModel) (c : v1)
    (hns : c.CredentialNamespace ≠ "") (hne : c.CredentialStores ≠ [])
    (hclean : storesClean c.CredentialStores) :
    v1.Validate P c = checkRequests P (aliasesOf c) c.CredentialRequests 0 [] := by
  have hcs := checkStores_eq_ok c.CredentialStores 0 [] hclean.1 hclean.2 (by simp)
  simp only [v1.Validate, if_neg hns, if_neg hne, hcs]
  exact checkRequests_congr P _ (aliasesOf c)
    (by intro a; simp [aliasesOf]) c.CredentialRequests 0 []

/-! ### C2: what a successful validation guarantees -/

/-- C2: whenever `v1.Validate` returns no error, all document invariants
hold: non-empty namespace; non-empty stores, all of known type, with
pairwise-distinct aliases; every request group's store field equals the
alias of some store; all flattened `(store, name)` pairs are pairwise
distinct across the whole document; and every flattened request's type is a
registered credential type whose provider config both decodes and passes the
provider's own validation. -/
theorem validate_ok_invariants (P : ProviderModel) (c : v1)
    (h : v1.Validate P c = .ok ()) :
    c.CredentialNamespace ≠ "" ∧
    c.CredentialStores ≠ [] ∧
    (∀ s ∈ c.CredentialStores, knownStoreType s.stype = true) ∧
    (aliasesOf c).Nodup ∧
    (∀ g ∈ c.CredentialRequests, g.store ∈ aliasesOf c) ∧
    (allPairs c).Nodup ∧
    (∀ g ∈ c.CredentialRequests, ∀ cd ∈ g.creds, ∀ fr ∈ cd.flatten,
      knownCredentialType fr.ctype = true ∧
      P.unmarshalConfig fr.ctype fr.config = .ok () ∧
      P.validateConfig fr.ctype fr.config = .ok ()) := by
  by_cases hns : c.CredentialNamespace = ""
  · simp [v1.Validate, hns] at h
  by_cases hne : c.CredentialStores = []
  · simp [v1.Validate, hns, hne] at h
  cases hcs : checkStores c.CredentialStores 0 [] with
  | error e => simp [v1.Validate, hns, hne, hcs] at h
  | ok aliases =>
    have h' : checkRequests P aliases c.CredentialRequests 0 [] = .ok () := by
      simpa [v1.Validate, hns, hne, hcs] using h
    obtain ⟨hk, hnd, _, hout⟩ := checkStores_ok c.CredentialStores 0 [] aliases hcs
    obtain ⟨hgc, hpnd, _⟩ := checkRequests_ok P aliases c.CredentialRequests 0 [] h'
    have hmem : ∀ a, a ∈ aliases ↔ a ∈ aliasesOf c := by
      intro a
      rw [hout]
      simp [aliasesOf]
    refine ⟨hns, hne, hk, hnd, ?_, hpnd, ?_⟩
    · intro g hg
      exact (hmem g.store).mp (hgc g hg).1
    · intro g hg cd hcd fr hfr
      obtain ⟨hp, hv⟩ := (hgc g hg).2 cd hcd |>.2 fr hfr
      obtain ⟨hkt, hu⟩ := parseProviderConfig_ok P fr.ctype fr.config hp
      exact ⟨hkt, hu, hv⟩

def cfgValid : v1 :=
  { version := 1, CredentialNamespace := "ns",
    CredentialStores := [ { stype := "inprocess", name := "", config := "" } ],
    CredentialRequests :=
      [ { store := "inprocess",
          creds := [ { inlineReq := { ctype := "random", name := "r1",
                                      rotationWindow := none, config := "{}" },
                       list := [] } ] } ] }

/-- Witness for C2 at a concrete valid configuration. -/
theorem validate_ok_invariants_witness :
    v1.Validate trivialProvider cfgValid = .ok () ∧
    (allPairs cfgValid).Nodup ∧ cfgValid.CredentialNamespace ≠ "" := by
  have h : v1.Validate trivialProvider cfgValid = .ok () := by rfl
  have hinv := validate_ok_invariants trivialProvider cfgValid h
  exact ⟨h, hinv.2.2.2.2.2.1, hinv.1⟩

/-! ### Fail-fast behaviour inside the request walk -/

theorem validate_requestError (P : ProviderModel) (c : v1)
    (R₁ : List requestV1) (g : requestV1) (R₂ : List requestV1)
    (hns : c.CredentialNamespace ≠ "") (hne : c.CredentialStores ≠ [])
    (hstores : storesClean c.CredentialStores)
    (hsplit : c.CredentialRequests = R₁ ++ g :: R₂)
    (hR₁ : ∀ x ∈ R₁, groupClean P (aliasesOf c) x)
    (hRnd : ((R₁.map groupPairs).flatten).Nodup) :
    (g.store ∉ aliasesOf c →
      v1.Validate P c = .error (.undefinedStore R₁.length g.store)) ∧
    (∀ C₁ cd C₂, g.store ∈ aliasesOf c → g.creds = C₁ ++ cd :: C₂ →
      (∀ x ∈ C₁, credClean P x) →
      ((R₁.map groupPairs).flatten ++ (C₁.map (credPairs g.store)).flatten).Nodup →
      ((∀ e, cd.validate = .error e →
          v1.Validate P c = .error (.invalidShorthand R₁.length C₁.length e)) ∧
       (∀ F₁ fr F₂, cd.validate = .ok () → cd.flatten = F₁ ++ fr :: F₂ →
          (∀ x ∈ F₁, providerOK P x) →
          ((R₁.map groupPairs).flatten ++ (C₁.map (credPairs g.store)).flatten ++
            F₁.map (pairFn g.store)).Nodup →
          ((∀ e, parseProviderConfig P fr.ctype fr.config = .error e →
              v1.Validate P c = .error (.parseConfigError R₁.length C₁.length e)) ∧
           (∀ e, parseProviderConfig P fr.ctype fr.config = .ok () →
              P.validateConfig fr.ctype fr.config = .error e →
              v1.Validate P c = .error (.invalidProviderConfig R₁.length C₁.length e)) ∧
           (providerOK P fr →
              pairFn g.store fr ∈ (R₁.map groupPairs).flatten ++
                (C₁.map (credPairs g.store)).flatten ++ F₁.map (pairFn g.store) →
              v1.Validate P c =
                .error (.duplicateRequest R₁.length C₁.length g.store fr.name)))))) := by
  have hglue := validate_eq_checkRequests P c hns hne hstores
  rw [hsplit] at hglue
  rw [checkRequests_append P (aliasesOf c) R₁ (g :: R₂) 0 [] hR₁ hRnd (by simp)] at hglue
  simp only [Nat.zero_add, List.append_nil] at hglue
  constructor
  · intro hs
    rw [hglue]
    simp [checkRequests, hs]
  · intro C₁ cd C₂ hs hc hC₁ hCnd
    obtain ⟨_, hCnd2, hdisjRC⟩ := List.nodup_append.mp hCnd
    have hgroup : v1.Validate P c =
        (match checkCreds P g.store R₁.length g.creds 0
            (((R₁.map groupPairs).flatten).reverse) with
         | .error e => .error e
         | .ok seen' => checkRequests P (aliasesOf c) R₂ (R₁.length + 1) seen') := by
      rw [hglue]
      simp [checkRequests, hs]
    rw [hc] at hgroup
    rw [checkCreds_append P g.store R₁.length C₁ (cd :: C₂) 0
        (((R₁.map groupPairs).flatten).reverse) hC₁ hCnd2
        (by
          intro p hp
          rw [List.mem_reverse]
          exact fun hr => hdisjRC hr hp)] at hgroup
    simp only [Nat.zero_add] at hgroup
    constructor
    · intro e hv
      have hcc : checkCreds P g.store R₁.length (cd :: C₂) C₁.length
          (((C₁.map (credPairs g.store)).flatten).reverse ++
            ((R₁.map groupPairs).flatten).reverse) =
          .error (.invalidShorthand R₁.length C₁.length e) := by
        simp [checkCreds, hv]
      rw [hgroup, hcc]
    · intro F₁ fr F₂ hv hf hF₁ hFnd
      obtain ⟨hRC, hFnd1, hdisjRCF⟩ := List.nodup_append.mp hFnd
      have happF := checkFlattened_append P g.store R₁.length C₁.length F₁ (fr :: F₂)
        (((C₁.map (credPairs g.store)).flatten).reverse ++
          ((R₁.map groupPairs).flatten).reverse) hF₁ hFnd1
        (by
          intro p hp
          rw [List.mem_append, List.mem_reverse, List.mem_reverse]
          push_neg
          exact ⟨fun hcmem => hdisjRCF (List.mem_append_right _ hcmem) hp,
                 fun hrmem => hdisjRCF (List.mem_append_left _ hrmem) hp⟩)
      refine ⟨?_, ?_, ?_⟩
      · intro e hp
        have hflat : checkFlattened P g.store R₁.length C₁.length (fr :: F₂)
            ((F₁.map (pairFn g.store)).reverse ++
              (((C₁.map (credPairs g.store)).flatten).reverse ++
                ((R₁.map groupPairs).flatten).reverse)) =
            .error (.parseConfigError R₁.length C₁.length e) := by
          simp [checkFlattened, hp]
        have hcc : checkCreds P g.store R₁.length (cd :: C₂) C₁.length
            (((C₁.map (credPairs g.store)).flatten).reverse ++
              ((R₁.map groupPairs).flatten).reverse) =
            .error (.parseConfigError R₁.length C₁.length e) := by
          simp only [checkCreds, hv]
          rw [hf, happF, hflat]
        rw [hgroup, hcc]
      · intro e hp hval
        have hflat : checkFlattened P g.store R₁.length C₁.length (fr :: F₂)
            ((F₁.map (pairFn g.store)).reverse ++
              (((C₁.map (credPairs g.store)).flatten).reverse ++
                ((R₁.map groupPairs).flatten).reverse)) =
            .error (.invalidProviderConfig R₁.length C₁.length e) := by
          simp [checkFlattened, hp, hval]
        have hcc : checkCreds P g.store R₁.length (cd :: C₂) C₁.length
            (((C₁.map (credPairs g.store)).flatten).reverse ++
              ((R₁.map groupPairs).flatten).reverse) =
            .error (.invalidProviderConfig R₁.length C₁.length e) := by
          simp only [checkCreds, hv]
          rw [hf, happF, hflat]
        rw [hgroup, hcc]
      · intro hprov hmem
        have hmem' : (g.store, fr.name) ∈ (F₁.map (pairFn g.store)).reverse ++
            (((C₁.map (credPairs g.store)).flatten).reverse ++
              ((R₁.map groupPairs).flatten).reverse) := by
          have hpr : pairFn g.store fr = (g.store, fr.name) := rfl
          rw [← hpr]
          simp only [List.mem_append, List.mem_reverse]
          rcases List.mem_append.mp hmem with hm | hm
          · rcases List.mem_append.mp hm with hm | hm
            · exact Or.inr (Or.inr hm)
            · exact Or.inr (Or.inl hm)
          · exact Or.inl hm
        have hflat : checkFlattened P g.store R₁.length C₁.length (fr :: F₂)
            ((F₁.map (pairFn g.store)).reverse ++
              (((C₁.map (credPairs g.store)).flatten).reverse ++
                ((R₁.map groupPairs).flatten).reverse)) =
            .error (.duplicateRequest R₁.length C₁.length g.store fr.name) := by
          simp [checkFlattened, hprov.1, hprov.2, hmem']
        have hcc : checkCreds P g.store R₁.length (cd :: C₂) C₁.length
            (((C₁.map (credPairs g.store)).flatten).reverse ++
              ((R₁.map groupPairs).flatten).reverse) =
            .error (.duplicateRequest R₁.length C₁.length g.store fr.name) := by
          simp only [checkCreds, hv]
          rw [hf, happF, hflat]
        rw [hgroup, hcc]

theorem validate_storeError (P : ProviderModel) (c : v1)
    (S₁ : List StoreConfig) (s : StoreConfig) (S₂ : List StoreConfig)
    (hns : c.CredentialNamespace ≠ "") (hsplit : c.CredentialStores = S₁ ++ s :: S₂)
    (hclean : storesClean S₁) :
    (knownStoreType s.stype = false →
      v1.Validate P c = .error (.unknownStoreType S₁.length s.stype)) ∧
    (knownStoreType s.stype = true → s.Alias ∈ S₁.map StoreConfig.Alias →
      v1.Validate P c = .error (.duplicateStore S₁.length s.Alias)) := by
  have hne : c.CredentialStores ≠ [] := by
    rw [hsplit]
    simp
  have happ := checkStores_append S₁ (s :: S₂) 0 [] hclean.1 hclean.2 (by simp)
  constructor
  · intro hk
    have hcs : checkStores c.CredentialStores 0 [] =
        .error (.unknownStoreType S₁.length s.stype) := by
      rw [hsplit, happ]
      simp [checkStores, hk, Nat.zero_add]
    exact validate_eq_stores_err P c _ hns hne hcs
  · intro hk hmem
    have hmem' : s.Alias ∈ (S₁.map StoreConfig.Alias).reverse ++ ([] : List String) := by
      simp only [List.append_nil, List.mem_reverse]
      exact hmem
    have hcs : checkStores c.CredentialStores 0 [] =
        .error (.duplicateStore S₁.length s.Alias) := by
      rw [hsplit, happ]
      simp only [checkStores]
      rw [if_pos hk, if_pos hmem']
      simp [Nat.zero_add]
    exact validate_eq_stores_err P c _ hns hne hcs

/-! ### C5: fail-fast, deterministic document order -/

/-- C5: on any violating config, `v1.Validate` returns exactly one error,
the first violation in document order: empty namespace, then empty stores,
then per store (in order) type before alias uniqueness, then per request
group (in order) the store reference, then per credential entry (in order)
the shorthand validation, then per flattened request the provider-config
parse, then its validity, then the `(store, name)` duplicate check; every
error carries the positional indexes of the offending entry. -/
theorem validate_fail_fast (P : ProviderModel) (c : v1) :
    (c.CredentialNamespace = "" → v1.Validate P c = .error .missingNamespace) ∧
    (c.CredentialNamespace ≠ "" → c.CredentialStores = [] →
      v1.Validate P c = .error .missingStores) ∧
    (∀ S₁ s S₂, c.CredentialNamespace ≠ "" → c.CredentialStores = S₁ ++ s :: S₂ →
      storesClean S₁ → knownStoreType s.stype = false →
      v1.Validate P c = .error (.unknownStoreType S₁.length s.stype)) ∧
    (∀ S₁ s S₂, c.CredentialNamespace ≠ "" → c.CredentialStores = S₁ ++ s :: S₂ →
      storesClean S₁ → knownStoreType s.stype = true →
      s.Alias ∈ S₁.map StoreConfig.Alias →
      v1.Validate P c = .error (.duplicateStore S₁.length s.Alias)) ∧
    (∀ R₁ g R₂, c.CredentialNamespace ≠ "" → c.CredentialStores ≠ [] →
      storesClean c.CredentialStores →
      c.CredentialRequests = R₁ ++ g :: R₂ →
      (∀ x ∈ R₁, groupClean P (aliasesOf c) x) →
      ((R₁.map groupPairs).flatten).Nodup →
      ((g.store ∉ aliasesOf c →
          v1.Validate P c = .error (.undefinedStore R₁.length g.store)) ∧
       (∀ C₁ cd C₂, g.store ∈ aliasesOf c → g.creds = C₁ ++ cd :: C₂ →
          (∀ x ∈ C₁, credClean P x) →
          ((R₁.map groupPairs).flatten ++ (C₁.map (credPairs g.store)).flatten).Nodup →
          ((∀ e, cd.validate = .error e →
              v1.Validate P c = .error (.invalidShorthand R₁.length C₁.length e)) ∧
           (∀ F₁ fr F₂, cd.validate = .ok () → cd.flatten = F₁ ++ fr :: F₂ →
              (∀ x ∈ F₁, providerOK P x) →
              ((R₁.map groupPairs).flatten ++ (C₁.map (credPairs g.store)).flatten ++
                F₁.map (pairFn g.store)).Nodup →
              ((∀ e, parseProviderConfig P fr.ctype fr.config = .error e →
                  v1.Validate P c = .error (.parseConfigError R₁.length C₁.length e)) ∧
               (∀ e, parseProviderConfig P fr.ctype fr.config = .ok () →
                  P.validateConfig fr.ctype fr.config = .error e →
                  v1.Validate P c =
                    .error (.invalidProviderConfig R₁.length C₁.length e)) ∧
               (providerOK P fr →
                  pairFn g.store fr ∈ (R₁.map groupPairs).flatten ++
                    (C₁.map (credPairs g.store)).flatten ++ F₁.map (pairFn g.store) →
                  v1.Validate P c =
                    .error (.duplicateRequest R₁.length C₁.length g.store fr.name)))))))) := by
  refine ⟨fun h => by simp [v1.Validate, h],
          fun hns hst => by simp [v1.Validate, hns, hst],
          fun S₁ s S₂ hns hsp hcl hk =>
            (validate_storeError P c S₁ s S₂ hns hsp hcl).1 hk,
          fun S₁ s S₂ hns hsp hcl hk hmem =>
            (validate_storeError P c S₁ s S₂ hns hsp hcl).2 hk hmem,
          fun R₁ g R₂ hns hne hst hsp hR hRnd =>
            validate_requestError P c R₁ g R₂ hns hne hst hsp hR hRnd⟩

def cfgEmptyStores : v1 :=
  { version := 1, CredentialNamespace := "ns",
    CredentialStores := [], CredentialRequests := [] }

def cfgBadStoreType : v1 :=
  { version := 1, CredentialNamespace := "ns",
    CredentialStores := [ { stype := "bogus", name := "", config := "" } ],
    CredentialRequests := [] }

/-- Witness for C5 at concrete violating configurations. -/
theorem validate_fail_fast_witness :
    v1.Validate trivialProvider cfgNoNamespace = .error .missingNamespace ∧
    v1.Validate trivialProvider cfgEmptyStores = .error .missingStores ∧
    v1.Validate trivialProvider cfgBadStoreType = .error (.unknownStoreType 0 "bogus") := by
  refine ⟨(validate_fail_fast trivialProvider cfgNoNamespace).1 rfl,
          (validate_fail_fast trivialProvider cfgEmptyStores).2.1 (by decide) rfl,
          ?_⟩
  have h := (validate_fail_fast trivialProvider cfgBadStoreType).2.2.1
    [] { stype := "bogus", name := "", config := "" } [] (by decide) rfl
    (by constructor <;> simp) (by decide)
  simpa using h

/-! ### C7: duplicate (store, name) detection -/

/-- C7: when the flattened requests contain a second occurrence of a
`(store, name)` pair — the occurrence sitting in group `g` (after groups
`R₁`), credential entry `cd` (after entries `C₁`), flattened position after
`F₁` — and every earlier entry passes all other checks (known stores, valid
store references, clean shorthands, passing provider configs, no earlier
duplicate), `Validate` fails with the duplicate-request error identifying
that pair and the offender's position; the two occurrences may come from
different shorthand list nodes or different groups bound to the same
store. -/
theorem validate_duplicate_request (P : ProviderModel) (c : v1)
    (R₁ : List requestV1) (g : requestV1) (R₂ : List requestV1)
    (C₁ : List credentialRequest) (cd : credentialRequest) (C₂ : List credentialRequest)
    (F₁ : List CredentialRequest) (fr : CredentialRequest) (F₂ : List CredentialRequest)
    (hns : c.CredentialNamespace ≠ "") (hne : c.CredentialStores ≠ [])
    (hstores : storesClean c.CredentialStores)
    (hsplit : c.CredentialRequests = R₁ ++ g :: R₂)
    (hR₁ : ∀ x ∈ R₁, groupClean P (aliasesOf c) x)
    (hs : g.store ∈ aliasesOf c)
    (hc : g.creds = C₁ ++ cd :: C₂)
    (hC₁ : ∀ x ∈ C₁, credClean P x)
    (hv : cd.validate = .ok ())
    (hf : cd.flatten = F₁ ++ fr :: F₂)
    (hF₁ : ∀ x ∈ F₁, providerOK P x)
    (hprov : providerOK P fr)
    (hnd : ((R₁.map groupPairs).flatten ++ (C₁.map (credPairs g.store)).flatten ++
      F₁.map (pairFn g.store)).Nodup)
    (hdup : pairFn g.store fr ∈ (R₁.map groupPairs).flatten ++
      (C₁.map (credPairs g.store)).flatten ++ F₁.map (pairFn g.store)) :
    v1.Validate P c = .error (.duplicateRequest R₁.length C₁.length g.store fr.name) := by
  have hCnd : ((R₁.map groupPairs).flatten ++
      (C₁.map (credPairs g.store)).flatten).Nodup :=
    (List.nodup_append.mp hnd).1
  have hRnd : ((R₁.map groupPairs).flatten).Nodup :=
    (List.nodup_append.mp hCnd).1
  exact (((validate_requestError P c R₁ g R₂ hns hne hstores hsplit hR₁ hRnd).2
      C₁ cd C₂ hs hc hC₁ hCnd).2 F₁ fr F₂ hv hf hF₁ hnd).2.2 hprov hdup

def groupShorthandAB : requestV1 :=
  { store := "inprocess",
    creds := [ { inlineReq := { ctype := "random", name := "", rotationWindow := none,
                                config := "" },
                 list := [ { ctype := "", name := "a", rotationWindow := none,
                             config := "{}" },
                           { ctype := "", name := "b", rotationWindow := none,
                             config := "{}" } ] } ] }

def nodeSingletonA : credentialRequest :=
  { inlineReq := { ctype := "random", name := "a", rotationWindow := none,
                   config := "{}" },
    list := [] }

def cfgDupAcrossGroups : v1 :=
  { version := 1, CredentialNamespace := "ns",
    CredentialStores := [ { stype := "inprocess", name := "", config := "" } ],
    CredentialRequests :=
      [ groupShorthandAB,
        { store := "inprocess", creds := [ nodeSingletonA ] } ] }

theorem trivialProvider_providerOK (r : CredentialRequest)
    (h : knownCredentialType r.ctype = true) : providerOK trivialProvider r := by
  constructor
  · simp [parseProviderConfig, h, trivialProvider]
  · rfl

/-- Witness for C7: the duplicate `("inprocess", "a")` arises from a
shorthand list node in one group and a singleton node in a later group
bound to the same store. -/
theorem validate_duplicate_request_witness :
    v1.Validate trivialProvider cfgDupAcrossGroups =
      .error (.duplicateRequest 1 0 "inprocess" "a") := by
  have h := validate_duplicate_request trivialProvider cfgDupAcrossGroups
    [groupShorthandAB] { store := "inprocess", creds := [ nodeSingletonA ] } []
    [] nodeSingletonA [] [] nodeSingletonA.inlineReq []
    (by decide) (by decide) (by constructor <;> decide) rfl
    (by
      intro x hx
      rw [List.mem_singleton] at hx
      subst hx
      refine ⟨by decide, ?_⟩
      intro cd hcd
      simp only [groupShorthandAB] at hcd
      rw [List.mem_singleton] at hcd
      subst hcd
      refine ⟨rfl, ?_⟩
      intro fr hfr
      apply trivialProvider_providerOK
      revert fr
      decide)
    (by decide) rfl (by intro x hx; simp at hx) rfl rfl
    (by intro x hx; simp at hx)
    (trivialProvider_providerOK nodeSingletonA.inlineReq (by decide))
    (by decide) (by decide)
  exact h

/-! ### C8: duplicate store aliases -/

def cfgAliasClash : v1 :=
  { version := 1, CredentialNamespace := "ns",
    CredentialStores := [ { stype := "inprocess", name := "a", config := "" },
                          { stype := "bogus", name := "a", config := "" } ],
    CredentialRequests := [] }

/-- C8 counterexample: two stores share the alias `"a"`, but because the
second store's type is unknown and the type check precedes the alias check,
`Validate` fails with an unknown-store-type error, not a
duplicate-store-alias error — refuting "regardless of the store types
involved". -/
theorem duplicate_alias_masked_by_unknown_type :
    (cfgAliasClash.CredentialStores.map StoreConfig.Alias) = ["a", "a"] ∧
    v1.Validate trivialProvider cfgAliasClash = .error (.unknownStoreType 1 "bogus") ∧
    isDuplicateStoreErr (v1.Validate trivialProvider cfgAliasClash) = false := by
  exact ⟨rfl, rfl, rfl⟩

/-- C8 (amended): for every config with a non-empty namespace in which the
stores up to and including the later of two alias-sharing stores all have
known types (of whatever kind) and the earlier aliases are pairwise
distinct, `Validate` fails with the duplicate-store-alias error reporting
the index and alias of the later store.  (The original claim's "regardless
of the store types" fails: an unknown type at or before the duplicate is
reported first, as is an empty namespace.) -/
theorem validate_duplicate_store_alias (P : ProviderModel) (c : v1)
    (S₁ : List StoreConfig) (s : StoreConfig) (S₂ : List StoreConfig)
    (hns : c.CredentialNamespace ≠ "")
    (hsplit : c.CredentialStores = S₁ ++ s :: S₂)
    (hclean : storesClean S₁)
    (hk : knownStoreType s.stype = true)
    (hdup : s.Alias ∈ S₁.map StoreConfig.Alias) :
    v1.Validate P c = .error (.duplicateStore S₁.length s.Alias) :=
  (validate_storeError P c S₁ s S₂ hns hsplit hclean).2 hk hdup

def cfgDupAliasKnown : v1 :=
  { version := 1, CredentialNamespace := "ns",
    CredentialStores := [ { stype := "inprocess", name := "a", config := "" },
                          { stype := "ssm", name := "a", config := "" } ],
    CredentialRequests := [] }

/-- Witness for C8's amended statement: two stores of different known types
share the alias `"a"`; the error reports index 1 and alias `"a"`. -/
theorem validate_duplicate_store_alias_witness :
    v1.Validate trivialProvider cfgDupAliasKnown = .error (.duplicateStore 1 "a") := by
  have h := validate_duplicate_store_alias trivialProvider cfgDupAliasKnown
    [ { stype := "inprocess", name := "a", config := "" } ]
    { stype := "ssm", name := "a", config := "" } []
    (by decide) rfl (by constructor <;> decide) (by decide) (by decide)
  exact h
